import Mathlib

/-!
Verification of the logreduce content/source model and CLI orchestration.

The development shallowly embeds the two source files of the repository:
  * `src/model/src/files.rs` — path helpers (`Content::from_path`,
    `Content::discover_baselines_from_path`, `Source::dir_iter`,
    `is_k8s_service`, `IndexName::from_path`);
  * `src/cli/src/main.rs` — the `process` model-resolution decision and the
    `process_live` inspection/reporting loop.

Rust `&str` values are embedded as Lean `String`; `usize` as `Nat` (with the
checked-subtraction panic of debug builds made explicit through `Option`);
filesystem queries (`is_dir`, `is_file`, `exists`) are abstracted as a pure
map `Fs : String → FsKind`; the `walkdir` traversal stream is abstracted as a
list of `Except`-valued entries, exactly the shape `Source::dir_iter` consumes.
-/

/-! ## Rust `std::path::Path` component model (Unix rules)

`IndexName::from_path` relies on `Path::file_name` and
`Path::parent().and_then(|p| p.file_name())`.  We model the Unix component
parser of Rust's standard library: the path is split on the separator, empty
pieces are dropped, `"."` pieces are dropped except for a leading current-dir
component, `".."` becomes a parent-dir component, a leading separator becomes
a root component. -/

inductive PathComponent where
  | rootDir : PathComponent
  | curDir : PathComponent
  | parentDir : PathComponent
  | normal (name : String) : PathComponent
deriving DecidableEq

/-- Split a character list on a separator character, keeping empty chunks
(the semantics of splitting `"a//b"` into `["a", "", "b"]`). -/
def splitSep (sep : Char) : List Char → List (List Char)
  | [] => [[]]
  | c :: cs =>
    if c = sep then [] :: splitSep sep cs
    else
      match splitSep sep cs with
      | [] => [[c]]
      | chunk :: rest => (c :: chunk) :: rest

/-- Character-list test that `pre` is an initial segment of `s`
(the semantics of Rust `str::starts_with`). -/
def startsWithChars : List Char → List Char → Bool
  | _, [] => true
  | [], _ :: _ => false
  | c :: cs, p :: ps => c = p && startsWithChars cs ps

/-- Rust `str::starts_with` on embedded strings. -/
def strStartsWith (s pre : String) : Bool :=
  startsWithChars s.data pre.data

/-- Rust's Unix rule keeping a leading `.` as a current-dir component:
the path has no root and begins with `.` followed by nothing or `/`. -/
def includeCurDir (s : String) : Bool :=
  !strStartsWith s "/" && (s == "." || strStartsWith s "./")

/-- The component list of a Unix path, as produced by Rust's
`Path::components`: optional root, optional leading current-dir, then each
non-empty piece that is not `"."`, with `".."` parsed as a parent-dir
component and anything else as a normal component. -/
def pathComponents (s : String) : List PathComponent :=
  let pieces := (splitSep '/' s.data).filter (fun p => !p.isEmpty && p ≠ ['.'])
  let body := pieces.map (fun p =>
    if p = ['.', '.'] then PathComponent.parentDir else PathComponent.normal ⟨p⟩)
  let root := if strStartsWith s "/" then [PathComponent.rootDir] else []
  let cur := if includeCurDir s then [PathComponent.curDir] else []
  root ++ cur ++ body

/-- Rust `Path::file_name().and_then(|os| os.to_str())`: the last component
when it is a normal one (`None` for paths ending in `..`, a root, or empty;
`to_str` never fails on a path built from a `&str`). -/
def fileName (s : String) : Option String :=
  match (pathComponents s).getLast? with
  | some (PathComponent.normal n) => some n
  | _ => none

/-- Rust `Path::parent().and_then(|p| p.file_name()).and_then(|os| os.to_str())`:
`parent` exists unless the component list is empty or ends in the root, and
its file name is the last normal component of the list with the final
component removed. -/
def parentFileName (s : String) : Option String :=
  match (pathComponents s).getLast? with
  | none => none
  | some PathComponent.rootDir => none
  | some _ =>
    match (pathComponents s).dropLast.getLast? with
    | some (PathComponent.normal n) => some n
    | _ => none

/-! ## `IndexName::from_path` (src/model/src/files.rs lines 66–116) -/

/-- The `IndexName` newtype: a single opaque string, the grouping key. -/
structure IndexName where
  name : String
deriving DecidableEq

/-- Rust `str::split_once(c)`: split at the first occurrence of `c`,
returning the (possibly empty) parts strictly before and after it, or
`none` when `c` does not occur. -/
def splitOnce (sep : Char) : List Char → Option (List Char × List Char)
  | [] => none
  | c :: cs =>
    if c = sep then some ([], cs)
    else
      match splitOnce sep cs with
      | some (pre, post) => some (c :: pre, post)
      | none => none

/-- `is_k8s_service` (files.rs lines 66–75): when the filename starts with
`k8s_` and contains a `-`, return the part before the first `-`. -/
def is_k8s_service (filename : String) : Option String :=
  if strStartsWith filename "k8s_" then
    match splitOnce '-' filename.data with
    | some (service, _) => some ⟨service⟩
    | none => none
  else none

/-- The character class kept by the step-4 normalization: the `replace`
call in files.rs removes every character that is not ASCII alphabetic and
not one of `/ . _ -`. -/
def keepChar (c : Char) : Bool :=
  c.isAlpha || c = '/' || c = '.' || c = '_' || c = '-'

/-- The character class trimmed from both ends by `trim_matches`. -/
def trimChar (c : Char) : Bool :=
  c = '/' || c = '.' || c = '_' || c = '-'

/-- Rust `str::trim_matches(pat)`: drop pattern characters from both ends. -/
def trimMatches (pat : Char → Bool) (l : List Char) : List Char :=
  ((l.dropWhile pat).reverse.dropWhile pat).reverse

/-- The step-4 normalization of files.rs lines 107–113: remove every
character not kept by `keepChar`, then trim `trimChar` characters from both
ends. -/
def normalizeShortName (shortfilename : String) : String :=
  ⟨trimMatches trimChar (shortfilename.data.filter keepChar)⟩

/-- The branch structure of `IndexName::from_path` once `filename` and the
parent directory name have been extracted: build `shortfilename`, then first
match wins among the qemu rule, the k8s rule and the normalization. -/
def IndexName.from_path_with (filename : String) (parentName : Option String) :
    IndexName :=
  let shortfilename : String :=
    match parentName with
    | none => filename
    | some parent => parent ++ "/" ++ filename
  let model_name : String :=
    if strStartsWith shortfilename "qemu/instance-" then "qemu/instance"
    else
      match is_k8s_service filename with
      | some service => service
      | none => normalizeShortName shortfilename
  ⟨model_name⟩

/-- `IndexName::from_path` (files.rs lines 84–116): extract the filename
(defaulting to `"N/A"`) and the parent directory name, then apply the rules. -/
def IndexName.from_path (base : String) : IndexName :=
  IndexName.from_path_with ((fileName base).getD "N/A") (parentFileName base)

/-- The `shortfilename` of files.rs lines 91–98: `"{parent}/{filename}"`
when a parent directory component exists, else just the filename. -/
def shortName (base : String) : String :=
  match parentFileName base with
  | none => (fileName base).getD "N/A"
  | some parent => parent ++ "/" ++ (fileName base).getD "N/A"

example : IndexName.from_path "builds/2/log" = ⟨"log"⟩ := by decide
example : IndexName.from_path "42/log" = ⟨"log"⟩ := by decide
example : IndexName.from_path "audit/audit.log" = ⟨"audit/audit.log"⟩ := by decide
example : IndexName.from_path "audit/audit.log.1" = ⟨"audit/audit.log"⟩ := by decide
example : IndexName.from_path "zuul/merger.log.2017-11-12" = ⟨"zuul/merger.log"⟩ := by decide
example : IndexName.from_path "containers/libvirt/qemu/instance-0000001d.log.txt.gz"
    = ⟨"qemu/instance"⟩ := by decide
example : IndexName.from_path "k8s_zuul-uuid" = ⟨"k8s_zuul"⟩ := by decide
example : IndexName.from_path "k3s_zuul-uuid" = ⟨"ks_zuul-uuid"⟩ := by decide
example : IndexName.from_path "" = ⟨"N/A"⟩ := by decide

/-! ## Claims C1–C4: the IndexName derivation rules -/

/-- Helper: `from_path` phrased through `shortName` when the parent branch is
fixed. -/
theorem from_path_eq_branch (s : String) :
    IndexName.from_path s =
      ⟨if strStartsWith (shortName s) "qemu/instance-" then "qemu/instance"
       else
        match is_k8s_service ((fileName s).getD "N/A") with
        | some service => service
        | none => normalizeShortName (shortName s)⟩ := by
  unfold IndexName.from_path IndexName.from_path_with shortName
  cases hp : parentFileName s <;> rfl

/-- C1: when the filename component is determined and neither the
qemu/instance- rule nor the k8s_ rule matches, `IndexName::from_path` returns
the shortname with every character that is not ASCII alphabetic and not one
of `/ . _ -` removed and the ends trimmed of `/ . _ -`; in particular
`derive("builds/2/log") = derive("42/log") = IndexName("log")` and
`derive("audit/audit.log") = derive("audit/audit.log.1") =
IndexName("audit/audit.log")`. -/
theorem from_path_default_rule :
    (∀ s f, fileName s = some f →
       strStartsWith (shortName s) "qemu/instance-" = false →
       is_k8s_service f = none →
       IndexName.from_path s = ⟨normalizeShortName (shortName s)⟩)
    ∧ IndexName.from_path "builds/2/log" = ⟨"log"⟩
    ∧ IndexName.from_path "42/log" = ⟨"log"⟩
    ∧ IndexName.from_path "audit/audit.log" = ⟨"audit/audit.log"⟩
    ∧ IndexName.from_path "audit/audit.log.1" = ⟨"audit/audit.log"⟩ := by
  refine ⟨?_, by decide, by decide, by decide, by decide⟩
  intro s f hf hq hk
  rw [from_path_eq_branch, hq, hf]
  simp [hk]

/-- Witness for C1 at the concrete path `"builds/2/log"`. -/
theorem from_path_default_rule_witness :
    fileName "builds/2/log" = some "log"
    ∧ strStartsWith (shortName "builds/2/log") "qemu/instance-" = false
    ∧ is_k8s_service "log" = none
    ∧ IndexName.from_path "builds/2/log"
        = ⟨normalizeShortName (shortName "builds/2/log")⟩ :=
  ⟨by decide, by decide, by decide,
    from_path_default_rule.1 "builds/2/log" "log" (by decide) (by decide) (by decide)⟩

/-- C2: when the shortname starts with `qemu/instance-`, `IndexName::from_path`
returns the literal `qemu/instance`; in particular both spec examples map to
`IndexName("qemu/instance")`. -/
theorem from_path_qemu_rule :
    (∀ s, strStartsWith (shortName s) "qemu/instance-" = true →
       IndexName.from_path s = ⟨"qemu/instance"⟩)
    ∧ IndexName.from_path "containers/libvirt/qemu/instance-0000001d.log.txt.gz"
        = ⟨"qemu/instance"⟩
    ∧ IndexName.from_path "libvirt/qemu/instance-000000ec.log.txt.gz"
        = ⟨"qemu/instance"⟩ := by
  refine ⟨?_, by decide, by decide⟩
  intro s hq
  rw [from_path_eq_branch, hq]
  simp

/-- Witness for C2 at the first concrete spec example. -/
theorem from_path_qemu_rule_witness :
    strStartsWith (shortName "containers/libvirt/qemu/instance-0000001d.log.txt.gz")
        "qemu/instance-" = true
    ∧ IndexName.from_path "containers/libvirt/qemu/instance-0000001d.log.txt.gz"
        = ⟨"qemu/instance"⟩ :=
  ⟨by decide,
    from_path_qemu_rule.1 "containers/libvirt/qemu/instance-0000001d.log.txt.gz"
      (by decide)⟩

/-- Helper for C3: a character list starting with `k3s_` does not start with
`k8s_`. -/
theorem startsWith_k3s_not_k8s (l : List Char)
    (h : startsWithChars l ['k', '3', 's', '_'] = true) :
    startsWithChars l ['k', '8', 's', '_'] = false := by
  match l with
  | [] => simp [startsWithChars] at h
  | [c] => simp [startsWithChars] at h
  | c :: c2 :: rest =>
    simp only [startsWithChars, Bool.and_eq_true, decide_eq_true_eq] at h
    obtain ⟨h1, h2, _⟩ := h
    subst h1; subst h2
    simp [startsWithChars]

/-- C3: when the shortname does not match the qemu rule and the filename starts
with the literal `k8s_` and contains a `-`, `IndexName::from_path` returns the
filename's segment before the first `-`; with the `k8s_` prefix but no `-` the
rule does not fire and the step-4 normalization applies; a `k3s_` filename
never triggers the rule, and `derive("k3s_zuul-uuid") ≠ IndexName("k3s_zuul")`. -/
theorem from_path_k8s_rule :
    (∀ s f svc rest, fileName s = some f →
       strStartsWith (shortName s) "qemu/instance-" = false →
       strStartsWith f "k8s_" = true →
       splitOnce '-' f.data = some (svc, rest) →
       IndexName.from_path s = ⟨⟨svc⟩⟩)
    ∧ (∀ s f, fileName s = some f →
       strStartsWith (shortName s) "qemu/instance-" = false →
       strStartsWith f "k8s_" = true →
       splitOnce '-' f.data = none →
       IndexName.from_path s = ⟨normalizeShortName (shortName s)⟩)
    ∧ (∀ f, strStartsWith f "k3s_" = true → is_k8s_service f = none)
    ∧ IndexName.from_path "k8s_zuul-uuid" = ⟨"k8s_zuul"⟩
    ∧ IndexName.from_path "k3s_zuul-uuid" ≠ ⟨"k3s_zuul"⟩ := by
  refine ⟨?_, ?_, ?_, by decide, by decide⟩
  · intro s f svc rest hf hq hk8 hsplit
    rw [from_path_eq_branch, hq, hf]
    simp [is_k8s_service, hk8, hsplit]
  · intro s f hf hq hk8 hsplit
    rw [from_path_eq_branch, hq, hf]
    simp [is_k8s_service, hk8, hsplit]
  · intro f h
    have h8 : startsWithChars f.data ['k', '8', 's', '_'] = false :=
      startsWith_k3s_not_k8s f.data h
    simp [is_k8s_service, strStartsWith, h8]

/-- Witness for C3 at the concrete path `"k8s_zuul-uuid"`. -/
theorem from_path_k8s_rule_witness :
    fileName "k8s_zuul-uuid" = some "k8s_zuul-uuid"
    ∧ strStartsWith (shortName "k8s_zuul-uuid") "qemu/instance-" = false
    ∧ strStartsWith "k8s_zuul-uuid" "k8s_" = true
    ∧ splitOnce '-' ("k8s_zuul-uuid").data
        = some (['k', '8', 's', '_', 'z', 'u', 'u', 'l'], ['u', 'u', 'i', 'd'])
    ∧ IndexName.from_path "k8s_zuul-uuid"
        = ⟨⟨['k', '8', 's', '_', 'z', 'u', 'u', 'l']⟩⟩ :=
  ⟨by decide, by decide, by decide, by decide,
    from_path_k8s_rule.1 "k8s_zuul-uuid" "k8s_zuul-uuid"
      ['k', '8', 's', '_', 'z', 'u', 'u', 'l'] ['u', 'u', 'i', 'd']
      (by decide) (by decide) (by decide) (by decide)⟩

/-- C4: `IndexName::from_path` is a total pure function of the path string —
every path, including the empty or malformed ones, yields an `IndexName` —
and when the filename component cannot be determined it defaults to the
literal `"N/A"`. -/
theorem from_path_total (s : String) :
    (∃ name, IndexName.from_path s = ⟨name⟩)
    ∧ (fileName s = none →
       IndexName.from_path s = IndexName.from_path_with "N/A" (parentFileName s)) := by
  constructor
  · exact ⟨(IndexName.from_path s).name, rfl⟩
  · intro h
    unfold IndexName.from_path
    rw [h]
    rfl

/-- Witness for C4 at the empty path (filename undetermined, result `"N/A"`). -/
theorem from_path_total_witness :
    fileName "" = none
    ∧ IndexName.from_path "" = IndexName.from_path_with "N/A" (parentFileName "")
    ∧ IndexName.from_path "" = ⟨"N/A"⟩ :=
  ⟨by decide, (from_path_total "").2 (by decide), by decide⟩

/-! ## Filesystem abstraction, `Content`, `Source` (src/model/src/files.rs)

Filesystem queries are abstracted as a pure map from path strings to the kind
of entry found there; `path.is_dir()`, `path.is_file()` and `path.exists()`
become inspections of that map. -/

inductive FsKind where
  | file : FsKind
  | directory : FsKind
  | absent : FsKind
deriving DecidableEq

def Fs : Type := String → FsKind

/-- Rust `Path::exists()`. -/
def pathExists (fs : Fs) (p : String) : Bool :=
  fs p ≠ FsKind.absent

/-- The `Source` enum of the model crate: `Source::Local(base_len, path)`. -/
inductive Source where
  | local (base_len : Nat) (path : String) : Source
deriving DecidableEq

/-- The `base_len` carried by a `Source`. -/
def Source.base_len : Source → Nat
  | .local n _ => n

/-- The `Content` enum restricted to the variants built by files.rs:
`Content::File(src)` and `Content::Directory(src)`. -/
inductive Content where
  | file (src : Source) : Content
  | directory (src : Source) : Content
deriving DecidableEq

/-- The `Source` held by a `Content`. -/
def Content.source : Content → Source
  | .file s => s
  | .directory s => s

/-- The `Input` enum variants used by the CLI (`Input::Path`, `Input::Url`). -/
inductive Input where
  | path (p : String) : Input
  | url (u : String) : Input
deriving DecidableEq

/-- `Content::from_path` (files.rs lines 13–23): wrap the path in
`Source::Local(0, path)`, classify it as `Directory` if `is_dir()`, else as
`File` if `is_file()`, else fail with the `Unknown path` error. -/
def Content.from_path (fs : Fs) (path : String) : Except String Content :=
  let src := Source.local 0 path
  if fs path = FsKind.directory then Except.ok (Content.directory src)
  else if fs path = FsKind.file then Except.ok (Content.file src)
  else Except.error ("Unknown path: " ++ path)

/-- Modelled from the spec: `Content::from_input` lives in the model crate's
lib.rs, which is not among the provided sources. Per the spec a `Path` input
is resolved exactly the way a user-supplied path is resolved, i.e. via
`Content::from_path`; URL inputs are handled by an excluded collaborator and
are out of the modelled scope. -/
def Content.from_input (fs : Fs) : Input → Except String Content
  | .path p => Content.from_path fs p
  | .url u => Except.error ("url input out of modelled scope: " ++ u)

/-- `Content::discover_baselines_from_path` (files.rs lines 26–32): append
the rotation suffix `".0"` to the path string and resolve the synthesized
path through `Content::from_input`, yielding a singleton baseline list. -/
def discover_baselines_from_path (fs : Fs) (path : String) :
    Except String (List Content) :=
  match Content.from_input fs (Input.path (path ++ ".0")) with
  | Except.ok baseline => Except.ok [baseline]
  | Except.error e => Except.error e

/-- Modelled from the spec: `Content::discover_baselines` (lib.rs, not among
the provided sources) wraps the per-scheme discovery; the spec requires that
a synthesized candidate that does not exist must not fail the overall run —
the condition surfaces as an empty baseline list, a soft "no baseline". -/
def Content.discover_baselines (fs : Fs) (path : String) :
    Except String (List Content) :=
  match discover_baselines_from_path fs path with
  | Except.ok baselines => Except.ok baselines
  | Except.error _ => Except.ok []

/-- A `walkdir` entry as consumed by `Source::dir_iter`: its path, whether
`file_type().is_file()`, and whether `path_is_symlink()`; traversal failures
are the `Except.error` case. -/
structure DirEntry where
  path : String
  is_file : Bool
  is_symlink : Bool
deriving DecidableEq

/-- `Source::keep_path` (files.rs lines 45–52): keep regular non-symlink
files, drop other successful entries, keep errors for book keeping. -/
def keep_path : Except String DirEntry → Bool
  | .ok entry => !entry.is_symlink && entry.is_file
  | .error _ => true

/-- The UTF-8 byte size of a character, as Rust's `str::len` counts it. -/
def charUtf8Size (c : Char) : Nat :=
  if c.val < 0x80 then 1
  else if c.val < 0x800 then 2
  else if c.val < 0x10000 then 3
  else 4

/-- Rust `str::len()`: the length of the string in UTF-8 bytes (not in
characters). -/
def strByteLen (s : String) : Nat :=
  (s.data.map charUtf8Size).sum

/-- `Source::dir_iter` (files.rs lines 54–63): compute
`base_len = path.to_str().map(|s| s.len()).unwrap_or(0)` once from the walk
root (a Lean `String` is always valid UTF-8, so `to_str` succeeds and
`s.len()` is the byte length), filter the walk with `keep_path`, and map
surviving entries to `Source::Local(base_len, entry_path)`, keeping errors. -/
def dir_iter (root : String) (walk : List (Except String DirEntry)) :
    List (Except String Source) :=
  let base_len := strByteLen root
  (walk.filter keep_path).map (fun res =>
    match res with
    | .error e => Except.error e
    | .ok entry => Except.ok (Source.local base_len entry.path))

/-! ## Claim C9: `base_len` of discovered and root sources -/

/-- C9 counterexample: the claim says `base_len` is the character length of
the walk root; for the two-byte one-character root `"é"` the code stores the
byte length 2, not the character length 1. -/
theorem dir_iter_base_len_counterexample :
    dir_iter "é" [Except.ok ⟨"é/x.log", true, false⟩]
      = [Except.ok (Source.local 2 "é/x.log")]
    ∧ ("é" : String).length = 1
    ∧ (2 : Nat) ≠ 1 := by
  refine ⟨rfl, rfl, by decide⟩

/-- C9 (amended): every `Source` produced by `dir_iter` carries `base_len`
equal to the UTF-8 byte length of the walk root (`str::len`), computed once
at walk start, and a `Source` created by `Content::from_path` carries
`base_len = 0`. -/
theorem base_len_spec :
    (∀ root walk src, Except.ok src ∈ dir_iter root walk →
       src.base_len = strByteLen root)
    ∧ (∀ fs p c, Content.from_path fs p = Except.ok c →
       c.source.base_len = 0) := by
  constructor
  · intro root walk src hmem
    unfold dir_iter at hmem
    simp only [List.mem_map] at hmem
    obtain ⟨res, _, hres⟩ := hmem
    cases res with
    | error e => simp at hres
    | ok entry =>
      simp only [] at hres
      cases hres
      rfl
  · intro fs p c hc
    unfold Content.from_path at hc
    split at hc
    · cases hc; rfl
    · split at hc
      · cases hc; rfl
      · cases hc

/-- Witness for C9 (amended) at a concrete walk and filesystem. -/
theorem base_len_spec_witness :
    Source.base_len (Source.local 2 "é/x.log") = strByteLen "é"
    ∧ Source.base_len (Content.source (Content.file (Source.local 0 "log"))) = 0 :=
  ⟨base_len_spec.1 "é" [Except.ok ⟨"é/x.log", true, false⟩]
      (Source.local 2 "é/x.log") (List.Mem.head _),
   base_len_spec.2 (fun _ => FsKind.file) "log" (Content.file (Source.local 0 "log"))
      rfl⟩

/-! ## Claim C5: model resolution in `process` (src/cli/src/main.rs lines 162–186) -/

/-- The action `process` decides for the model, one per invocation:
load the persisted model, fail with the ambiguity error, or train a fresh
model from the explicit baselines or from automatic discovery.  The
ambiguity case is a single terminal error action — no load or training is
attempted after it. -/
inductive ModelAction where
  | load : ModelAction
  | ambiguousError : ModelAction
  | trainExplicit (baselines : List Input) : ModelAction
  | trainDiscovered : ModelAction
deriving DecidableEq

/-- The training arm of `process` (main.rs lines 167–185): baselines are the
explicit list when one was given, otherwise automatic discovery from the
target content. -/
def train_action : Option (List Input) → ModelAction
  | some baselines => ModelAction.trainExplicit baselines
  | none => ModelAction.trainDiscovered

/-- The model-resolution match of `process` (main.rs lines 162–186):
`Some(path) if path.exists()` selects load (no baselines) or the ambiguity
error (baselines given); every other case trains. -/
def resolve_model (fs : Fs) (model_path : Option String)
    (baselines : Option (List Input)) : ModelAction :=
  match model_path with
  | some path =>
    if pathExists fs path then
      match baselines with
      | none => ModelAction.load
      | some _ => ModelAction.ambiguousError
    else train_action baselines
  | none => train_action baselines

/-- C5: the three-way decision table on (persisted-path-exists,
explicit-baselines-given): load when the path exists and no baselines were
given; the terminal ambiguity error when both are present; otherwise train
from the explicit list or from discovery. -/
theorem model_resolution_table (fs : Fs) (p : String) (bs : List Input)
    (mb : Option (List Input)) :
    (pathExists fs p = true → resolve_model fs (some p) none = ModelAction.load)
    ∧ (pathExists fs p = true →
       resolve_model fs (some p) (some bs) = ModelAction.ambiguousError)
    ∧ (pathExists fs p = false → resolve_model fs (some p) mb = train_action mb)
    ∧ resolve_model fs none mb = train_action mb
    ∧ train_action (some bs) = ModelAction.trainExplicit bs
    ∧ train_action none = ModelAction.trainDiscovered := by
  refine ⟨?_, ?_, ?_, rfl, rfl, rfl⟩
  · intro h; simp [resolve_model, h]
  · intro h; simp [resolve_model, h]
  · intro h; simp [resolve_model, h]

/-- Witness for C5 on a one-file filesystem: the model path exists, so the
no-baseline call loads and the with-baseline call is the ambiguity error. -/
theorem model_resolution_table_witness :
    resolve_model (fun _ => FsKind.file) (some "model.bin") none = ModelAction.load
    ∧ resolve_model (fun _ => FsKind.file) (some "model.bin")
        (some [Input.path "b"]) = ModelAction.ambiguousError
    ∧ resolve_model (fun _ => FsKind.absent) (some "model.bin")
        (some [Input.path "b"]) = train_action (some [Input.path "b"]) :=
  ⟨(model_resolution_table (fun _ => FsKind.file) "model.bin" [Input.path "b"]
      none).1 (by decide),
   (model_resolution_table (fun _ => FsKind.file) "model.bin" [Input.path "b"]
      none).2.1 (by decide),
   (model_resolution_table (fun _ => FsKind.absent) "model.bin" [Input.path "b"]
      (some [Input.path "b"])).2.2.1 (by decide)⟩

/-! ## Claim C6: baseline discovery by rotation suffix -/

/-- C6: `discover_baselines_from_path` synthesizes the candidate path by
appending the rotation suffix `".0"` and resolves it exactly the way a
user-supplied path input is resolved, as a singleton baseline list; and the
wrapping discovery treats an absent candidate as a soft empty-baselines
result rather than a hard failure of the run. -/
theorem discover_baselines_rotation (fs : Fs) (p : String) :
    discover_baselines_from_path fs p
      = (Content.from_input fs (Input.path (p ++ ".0"))).map (fun c => [c])
    ∧ (fs (p ++ ".0") = FsKind.absent →
       Content.discover_baselines fs p = Except.ok []) := by
  constructor
  · unfold discover_baselines_from_path
    cases Content.from_input fs (Input.path (p ++ ".0")) <;> rfl
  · intro h
    simp [Content.discover_baselines, discover_baselines_from_path,
      Content.from_input, Content.from_path, h]

/-- Witness for C6 on the empty filesystem: the synthesized `"log.0"` is
absent and discovery yields the soft empty baseline list. -/
theorem discover_baselines_rotation_witness :
    Content.discover_baselines (fun _ => FsKind.absent) "log" = Except.ok [] :=
  (discover_baselines_rotation (fun _ => FsKind.absent) "log").2 rfl

/-! ## The live inspection loop (`process_live`, src/cli/src/main.rs lines 204–262)

Printing is modelled as a list of output events; the external collaborators
(`Model::get_index` and `Index::inspect`) are abstracted by giving each
source the result of the index lookup and, when an index exists, the stream
of `Result<AnomalyContext>` items that `inspect` yields.  The checked
`usize` subtraction `pos - 1 - before.len()` panics when it underflows
(debug-build semantics); the panic is modelled as `none`. -/

/-- The anomaly record consumed by `print_anomaly`: normalized distance,
1-based line position, raw line text. -/
structure Anomaly where
  distance : Rat
  pos : Nat
  line : String
deriving DecidableEq

/-- One anomaly plus its context window of preceding and following lines. -/
structure AnomalyContext where
  anomaly : Anomaly
  before : List String
  after : List String
deriving DecidableEq

/-- One unit of `process_live` output. -/
inductive OutEvent where
  | sep : OutEvent
  | gap : OutEvent
  | contextLine (pos : Nat) (line : String) : OutEvent
  | anomalyLine (distance : Rat) (pos : Nat) (line : String) : OutEvent
  | readError (source msg : String) : OutEvent
  | noBaseline (source : String) : OutEvent
  | eraseProgress : OutEvent
deriving DecidableEq

/-- The `print_context` closure (main.rs lines 205–209): print each line of
the window at consecutive positions starting from `pos`. -/
def print_context (pos : Nat) : List String → List OutEvent
  | [] => []
  | line :: rest => OutEvent.contextLine pos line :: print_context (pos + 1) rest

/-- The start of an anomaly's context window as the code computes it:
`anomaly.anomaly.pos - 1 - anomaly.before.len()`. -/
def window_start (a : AnomalyContext) : Nat :=
  a.anomaly.pos - 1 - a.before.length

/-- The `print_anomaly` closure (main.rs lines 216–234): compute the window
start by checked `usize` subtraction (`none` = underflow panic), print a
`--` gap marker when a previous window end is tracked and differs from the
window start, then the before-window, the anomaly line and the after-window;
the new tracked position is `pos + after.len()`. -/
def print_anomaly (a : AnomalyContext) (last_pos : Option Nat) :
    Option (List OutEvent × Nat) :=
  if a.before.length + 1 ≤ a.anomaly.pos then
    let starting_pos := a.anomaly.pos - 1 - a.before.length
    let gapEvs : List OutEvent :=
      match last_pos with
      | some lp => if lp ≠ starting_pos then [OutEvent.gap] else []
      | none => []
    some (gapEvs ++ print_context starting_pos a.before
            ++ [OutEvent.anomalyLine a.anomaly.distance a.anomaly.pos a.anomaly.line]
            ++ print_context a.anomaly.pos a.after,
          a.anomaly.pos + a.after.length)
  else none

/-- The per-source anomaly loop (main.rs lines 236–249): for each item a
progress separator is printed first when enabled and not yet shown; an `Ok`
anomaly is printed (threading `last_pos`); an `Err` prints the inline
`Could not read` notice attributed to the source and breaks out of the
loop. -/
def inspect_loop (sp : Bool) (srcName : String) :
    List (Except String AnomalyContext) → Option Nat → Bool →
    Option (List OutEvent × Bool)
  | [], _, sh => some ([], sh)
  | item :: rest, last_pos, sh =>
    let sepEvs : List OutEvent := if sp && !sh then [OutEvent.sep] else []
    let sh2 := sh || sp
    match item with
    | .error e => some (sepEvs ++ [OutEvent.readError srcName e], sh2)
    | .ok a =>
      match print_anomaly a last_pos with
      | none => none
      | some (evs, lp2) =>
        match inspect_loop sp srcName rest (some lp2) sh2 with
        | none => none
        | some (evs2, shFinal) => some (sepEvs ++ evs ++ evs2, shFinal)

/-- A target source as `process_live` sees it: its display name and the
outcome of the external collaborators — `none` when `Model::get_index`
found no trained index, otherwise the stream `Index::inspect` yields. -/
structure LiveSource where
  name : String
  inspect : Option (List (Except String AnomalyContext))

/-- One iteration of the source loop (main.rs lines 212–255): with an index,
reset `progress_sep_shown` to `false` and run the anomaly loop with no
tracked position; without one, set the flag and print the
`No baselines` notice. -/
def process_source (sp : Bool) (s : LiveSource) : Option (List OutEvent × Bool) :=
  match s.inspect with
  | some items => inspect_loop sp s.name items none false
  | none => some ([OutEvent.noBaseline s.name], true)

/-- The source loop of `process_live`, threading `progress_sep_shown`. -/
def process_sources (sp : Bool) (sh : Bool) :
    List LiveSource → Option (List OutEvent × Bool)
  | [] => some ([], sh)
  | s :: rest =>
    match process_source sp s with
    | none => none
    | some (evs, sh2) =>
      match process_sources sp sh2 rest with
      | none => none
      | some (evs2, shFinal) => some (evs ++ evs2, shFinal)

/-- `process_live` (main.rs lines 204–262): run every source from the flag's
initial `false` state, then erase the dangling progress indicator when
progress is enabled and the last source showed no separator. -/
def process_live (sp : Bool) (content : List LiveSource) : Option (List OutEvent) :=
  match process_sources sp false content with
  | none => none
  | some (evs, sh) =>
    some (if sp && !sh then evs ++ [OutEvent.eraseProgress] else evs)

/-! ## Claim C7: read-error resilience of the live loop -/

/-- Helper: the per-source loop never looks past the first `Err` item —
the `break` makes everything after it irrelevant. -/
theorem inspect_loop_stops_at_error (sp : Bool) (nm e : String)
    (rest : List (Except String AnomalyContext)) :
    ∀ (items : List (Except String AnomalyContext)) (lp : Option Nat) (sh : Bool),
      inspect_loop sp nm (items ++ Except.error e :: rest) lp sh
        = inspect_loop sp nm (items ++ [Except.error e]) lp sh := by
  intro items
  induction items with
  | nil => intro lp sh; rfl
  | cons item items ih =>
    intro lp sh
    cases item with
    | error e2 => rfl
    | ok a =>
      simp only [List.cons_append, inspect_loop, List.append_eq]
      cases print_anomaly a lp with
      | none => rfl
      | some p => simp only [ih]

/-- Helper: when the per-source loop returns events for a stream whose items
are all `Ok` until a read failure, the inline error notice for that source is
among them. -/
theorem inspect_loop_error_mem (sp : Bool) (nm e : String)
    (rest : List (Except String AnomalyContext)) :
    ∀ (oks : List AnomalyContext) (lp : Option Nat) (sh : Bool)
      (evs : List OutEvent) (shf : Bool),
      inspect_loop sp nm (oks.map Except.ok ++ Except.error e :: rest) lp sh
          = some (evs, shf) →
      OutEvent.readError nm e ∈ evs := by
  intro oks
  induction oks with
  | nil =>
    intro lp sh evs shf h
    simp only [List.map_nil, List.nil_append, inspect_loop, Option.some.injEq,
      Prod.mk.injEq] at h
    obtain ⟨hevs, _⟩ := h
    subst hevs
    simp
  | cons a oks ih =>
    intro lp sh evs shf h
    simp only [List.map_cons, List.cons_append, inspect_loop, List.append_eq] at h
    cases hpa : print_anomaly a lp with
    | none => rw [hpa] at h; simp at h
    | some p =>
      obtain ⟨evs1, lp2⟩ := p
      simp only [hpa] at h
      cases hrec : inspect_loop sp nm (oks.map Except.ok ++ Except.error e :: rest)
          (some lp2) (sh || sp) with
      | none => simp only [hrec] at h; exact Option.noConfusion h
      | some q =>
        obtain ⟨evs2, shF⟩ := q
        simp only [hrec, Option.some.injEq, Prod.mk.injEq] at h
        obtain ⟨hevs, _⟩ := h
        subst hevs
        have hmem := ih (some lp2) (sh || sp) evs2 shF hrec
        simp [hmem]

/-- Helper: appending a read failure (and anything after it) to a stream that
the loop scans successfully never turns the scan into a panic. -/
theorem inspect_loop_error_isSome (sp : Bool) (nm e : String)
    (rest : List (Except String AnomalyContext)) :
    ∀ (oks : List AnomalyContext) (lp : Option Nat) (sh : Bool),
      (inspect_loop sp nm (oks.map Except.ok) lp sh).isSome →
      (inspect_loop sp nm (oks.map Except.ok ++ Except.error e :: rest) lp sh).isSome := by
  intro oks
  induction oks with
  | nil => intro lp sh _; rfl
  | cons a oks ih =>
    intro lp sh h
    simp only [List.map_cons, inspect_loop, List.append_eq] at h
    simp only [List.map_cons, List.cons_append, inspect_loop, List.append_eq]
    cases hpa : print_anomaly a lp with
    | none => rw [hpa] at h; simp at h
    | some p =>
      obtain ⟨evs1, lp2⟩ := p
      simp only [hpa] at h ⊢
      have h2 : (inspect_loop sp nm (oks.map Except.ok) (some lp2) (sh || sp)).isSome := by
        cases hrec : inspect_loop sp nm (oks.map Except.ok) (some lp2) (sh || sp) with
        | none => simp only [hrec] at h; simp at h
        | some q => rfl
      have h3 := ih (some lp2) (sh || sp) h2
      cases hrec2 : inspect_loop sp nm (oks.map Except.ok ++ Except.error e :: rest)
          (some lp2) (sh || sp) with
      | none => rw [hrec2] at h3; simp at h3
      | some q => simp only [hrec2]; obtain ⟨evs2, shF⟩ := q; rfl

/-- Helper: the source loop splits over list append. -/
theorem process_sources_append (sp : Bool) :
    ∀ (xs ys : List LiveSource) (sh : Bool),
      process_sources sp sh (xs ++ ys)
        = match process_sources sp sh xs with
          | none => none
          | some (evs, sh2) =>
            match process_sources sp sh2 ys with
            | none => none
            | some (evs2, sh3) => some (evs ++ evs2, sh3)
  := by
  intro xs
  induction xs with
  | nil =>
    intro ys sh
    simp only [List.nil_append, process_sources]
    cases process_sources sp sh ys with
    | none => rfl
    | some q => obtain ⟨evs2, sh3⟩ := q; simp
  | cons x xs ih =>
    intro ys sh
    simp only [List.cons_append, process_sources, List.append_eq]
    cases process_source sp x with
    | none => rfl
    | some q =>
      obtain ⟨evs1, sh2⟩ := q
      simp only []
      rw [ih]
      cases process_sources sp sh2 xs with
      | none => rfl
      | some r =>
        obtain ⟨evs2, sh3⟩ := r
        simp only []
        cases process_sources sp sh3 ys with
        | none => rfl
        | some t => obtain ⟨evs3, sh4⟩ := t; simp

/-- C7: during live inspection a mid-stream read failure in one source is
reported inline attributed to that source, stops iteration over that source
(everything after the failure is irrelevant), and never aborts the remaining
sources or the whole report (the live output over any surrounding sources is
exactly the output with the failed source truncated at its error, and a
stream that scanned without panic still scans without panic when the failure
is appended). -/
theorem live_read_error_resilience (sp : Bool) (nm e : String)
    (oks : List AnomalyContext) (rest : List (Except String AnomalyContext))
    (ss1 ss2 : List LiveSource) :
    (∀ (items : List (Except String AnomalyContext)) (lp : Option Nat) (sh : Bool),
       inspect_loop sp nm (items ++ Except.error e :: rest) lp sh
         = inspect_loop sp nm (items ++ [Except.error e]) lp sh)
    ∧ process_live sp
        (ss1 ++ ⟨nm, some (oks.map Except.ok ++ Except.error e :: rest)⟩ :: ss2)
        = process_live sp
            (ss1 ++ ⟨nm, some (oks.map Except.ok ++ [Except.error e])⟩ :: ss2)
    ∧ (∀ (evs : List OutEvent) (shf : Bool),
       process_source sp ⟨nm, some (oks.map Except.ok ++ Except.error e :: rest)⟩
           = some (evs, shf) →
       OutEvent.readError nm e ∈ evs)
    ∧ (∀ (lp : Option Nat) (sh : Bool),
       (inspect_loop sp nm (oks.map Except.ok) lp sh).isSome →
       (inspect_loop sp nm (oks.map Except.ok ++ Except.error e :: rest) lp sh).isSome)
    := by
  refine ⟨inspect_loop_stops_at_error sp nm e rest, ?_,
    fun evs shf h => inspect_loop_error_mem sp nm e rest oks none false evs shf h,
    inspect_loop_error_isSome sp nm e rest oks⟩
  have hsrc : process_source sp ⟨nm, some (oks.map Except.ok ++ Except.error e :: rest)⟩
      = process_source sp ⟨nm, some (oks.map Except.ok ++ [Except.error e])⟩ :=
    inspect_loop_stops_at_error sp nm e rest (oks.map Except.ok) none false
  have hcons : ∀ sh : Bool,
      process_sources sp sh
          (⟨nm, some (oks.map Except.ok ++ Except.error e :: rest)⟩ :: ss2)
        = process_sources sp sh
            (⟨nm, some (oks.map Except.ok ++ [Except.error e])⟩ :: ss2) := by
    intro sh
    simp only [process_sources]
    rw [hsrc]
  unfold process_live
  rw [process_sources_append, process_sources_append]
  simp only [hcons]

/-- Witness for C7: one source whose stream is a single read failure reports
that failure inline. -/
theorem live_read_error_resilience_witness :
    OutEvent.readError "src" "io" ∈ [OutEvent.readError "src" "io"] :=
  (live_read_error_resilience false "src" "io" [] [] [] []).2.2.1
    [OutEvent.readError "src" "io"] false rfl

/-! ## Claim C8: gap markers between printed anomalies -/

/-- Recognizer of the `--` gap marker event. -/
def isGap : OutEvent → Bool
  | OutEvent.gap => true
  | _ => false

/-- The number of gap markers in a list of output events. -/
def gapCount (evs : List OutEvent) : Nat :=
  evs.countP isGap

/-- Helper: context windows contain no gap marker. -/
theorem countP_isGap_print_context (xs : List String) :
    ∀ pos, (print_context pos xs).countP isGap = 0 := by
  induction xs with
  | nil => intro pos; rfl
  | cons line rest ih =>
    intro pos
    simp [print_context, List.countP_cons, isGap, ih (pos + 1)]

/-- C8: with a previous anomaly printed, the tracked position is the line
position immediately following its context window (`pos + after.len()`); the
next anomaly of the same source prints no gap marker when its window starts
exactly there and exactly one leading `--` marker when it starts elsewhere;
and the first anomaly of a source (no tracked position) prints no marker. -/
theorem live_gap_marker (a1 a2 : AnomalyContext) (lp0 : Option Nat)
    (evs1 evs2 : List OutEvent) (lp1 lp2 : Nat)
    (h1 : print_anomaly a1 lp0 = some (evs1, lp1))
    (h2 : print_anomaly a2 (some lp1) = some (evs2, lp2)) :
    lp1 = a1.anomaly.pos + a1.after.length
    ∧ (window_start a2 = lp1 → gapCount evs2 = 0)
    ∧ (window_start a2 ≠ lp1 →
       evs2.head? = some OutEvent.gap ∧ gapCount evs2 = 1)
    ∧ (∀ evs lp, print_anomaly a1 none = some (evs, lp) → gapCount evs = 0) := by
  unfold print_anomaly at h1 h2
  by_cases hg1 : a1.before.length + 1 ≤ a1.anomaly.pos
  case neg => rw [if_neg hg1] at h1; exact Option.noConfusion h1
  rw [if_pos hg1] at h1
  by_cases hg2 : a2.before.length + 1 ≤ a2.anomaly.pos
  case neg => rw [if_neg hg2] at h2; exact Option.noConfusion h2
  rw [if_pos hg2] at h2
  simp only [Option.some.injEq, Prod.mk.injEq] at h1 h2
  obtain ⟨hevs1, hlp1⟩ := h1
  obtain ⟨hevs2, hlp2⟩ := h2
  refine ⟨hlp1.symm, ?_, ?_, ?_⟩
  · intro hw
    unfold window_start at hw
    subst hevs2
    rw [if_neg (not_not_intro hw.symm)]
    simp [gapCount, List.countP_append, List.countP_cons, isGap,
      countP_isGap_print_context]
  · intro hw
    unfold window_start at hw
    subst hevs2
    rw [if_pos (Ne.symm hw)]
    constructor
    · rfl
    · simp [gapCount, List.countP_append, List.countP_cons, isGap,
        countP_isGap_print_context]
  · intro evs lp h
    unfold print_anomaly at h
    rw [if_pos hg1] at h
    simp only [Option.some.injEq, Prod.mk.injEq] at h
    obtain ⟨hevs, _⟩ := h
    subst hevs
    simp [gapCount, List.countP_append, List.countP_cons, isGap,
      countP_isGap_print_context]

/-- Witness for C8: a first anomaly at position 2 with empty windows tracks
position 2; a second anomaly whose window starts at 4 is non-contiguous, so
exactly one leading gap marker is printed. -/
theorem live_gap_marker_witness :
    List.head? [OutEvent.gap, OutEvent.anomalyLine 0 5 "y"] = some OutEvent.gap
    ∧ gapCount [OutEvent.gap, OutEvent.anomalyLine 0 5 "y"] = 1 :=
  (live_gap_marker ⟨⟨0, 2, "x"⟩, [], []⟩ ⟨⟨0, 5, "y"⟩, [], []⟩ none
      [OutEvent.anomalyLine 0 2 "x"] [OutEvent.gap, OutEvent.anomalyLine 0 5 "y"]
      2 5 rfl rfl).2.2.1 (by decide)

/-! ## Claim C10: the checked subtraction in `print_anomaly` -/

/-- C10: printing an anomaly computes the window start as
`pos - 1 - before.len()` in `usize` arithmetic; it is panic-free exactly when
`before.len() + 1 <= pos`, and for `before.len() >= pos` the subtraction
underflows (the modelled panic `none`). -/
theorem print_anomaly_underflow (a : AnomalyContext) (lp : Option Nat) :
    ((print_anomaly a lp).isSome ↔ a.before.length + 1 ≤ a.anomaly.pos)
    ∧ (a.anomaly.pos ≤ a.before.length → print_anomaly a lp = none) := by
  constructor
  · constructor
    · intro h
      by_contra hn
      unfold print_anomaly at h
      rw [if_neg hn] at h
      simp at h
    · intro h
      unfold print_anomaly
      rw [if_pos h]
      rfl
  · intro h
    unfold print_anomaly
    rw [if_neg (by omega)]

/-- Witness for C10: an anomaly at position 1 with one before-line
(`before.len() = 1 >= pos = 1`) panics. -/
theorem print_anomaly_underflow_witness :
    print_anomaly ⟨⟨0, 1, "line"⟩, ["ctx"], []⟩ none = none :=
  (print_anomaly_underflow ⟨⟨0, 1, "line"⟩, ["ctx"], []⟩ none).2 (by decide)
